import Mathlib

/-!
Shallow embedding of `docs/build/build/build-site.py` (pharo-llm/pharo-copilot),
a static-site build script, together with theorems settling the frozen claims
about it.  Text-processing functions from the script are modelled over
`List Char` (Python `str` semantics made explicit), paths over their component
lists, and the build loop over an explicit write log.
-/

namespace BuildSite

/-! ## Python string primitives -/

/-- Characters Python `str.strip()` removes (ASCII/Latin-1 whitespace). -/
def isPySpace (c : Char) : Bool :=
  c = ' ' || c = '\t' || c = '\n' || c = '\r' || c = '\x0b' || c = '\x0c' ||
  c = '\x85' || c = '\xa0'

/-- `str.strip()` on a character sequence. -/
def pyStripL (cs : List Char) : List Char :=
  ((cs.dropWhile isPySpace).reverse.dropWhile isPySpace).reverse

/-- Line boundaries recognised by Python `str.splitlines()`. -/
def isLineBreak (c : Char) : Bool :=
  c = '\n' || c = '\r' || c = '\x0b' || c = '\x0c' ||
  c = '\x1c' || c = '\x1d' || c = '\x1e' || c = '\x85' ||
  c = '\u2028' || c = '\u2029'

/-- `str.splitlines()`: split at line boundaries (`\r\n` counts once), and a
trailing boundary does not produce a final empty line. -/
def pySplitLines : List Char → List (List Char)
  | [] => []
  | '\r' :: '\n' :: cs => [] :: pySplitLines cs
  | c :: cs =>
    if isLineBreak c then [] :: pySplitLines cs
    else
      match pySplitLines cs with
      | [] => [[c]]
      | l :: ls => (c :: l) :: ls

/-- `str.lower()` (ASCII case folding, as the script only meets ASCII names). -/
def pyLower (cs : List Char) : List Char := cs.map Char.toLower

/-- `str.replace(old, new)` for one-character `old`/`new`. -/
def pyReplaceChar (old new : Char) (cs : List Char) : List Char :=
  cs.map fun c => if c = old then new else c

/-- Python `str.title()`: a letter is uppercased when the previous character is
not a letter, lowercased otherwise; non-letters pass through and break words. -/
def pyTitleAux : Bool → List Char → List Char
  | _, [] => []
  | prevCased, c :: cs =>
    let cased := c.isAlpha
    let c' := if cased then (if prevCased then c.toLower else c.toUpper) else c
    c' :: pyTitleAux cased cs

/-- `str.title()`. -/
def pyTitle (cs : List Char) : List Char := pyTitleAux false cs

/-! ## Output-path computation (`md_rel_to_html_rel`, lines 188-189)

A relative path is a directory-component list together with a final name. -/

/-- A path relative to the source (or output) root: directory parts plus name. -/
structure RelPath where
  dir : List String
  name : String
deriving DecidableEq, Repr

/-- Index (from the right) of the last `.` in a name, if any. -/
def lastDotPos : List Char → Option Nat
  | [] => none
  | c :: cs =>
    match lastDotPos cs with
    | some i => some (i + 1)
    | none => if c = '.' then some 0 else none

/-- `pathlib.PurePath.with_suffix`: drop the existing suffix (the part from the
last `.`, provided that dot is neither the first nor the last character) and
append the new one. -/
def withSuffix (name : String) (suf : String) : String :=
  match lastDotPos name.data with
  | some i =>
    if 0 < i ∧ i + 1 < name.data.length then ⟨name.data.take i⟩ ++ suf
    else name ++ suf
  | none => name ++ suf

/-- `md_rel_to_html_rel`: a name whose lowercasing is `index.md` maps to the
bare path `index.html` (the directory components are dropped); any other name
has its suffix replaced by `.html` in place. -/
def md_rel_to_html_rel (rel_md : RelPath) : RelPath :=
  if pyLower rel_md.name.data = "index.md".data then ⟨[], "index.html"⟩
  else ⟨rel_md.dir, withSuffix rel_md.name ".html"⟩

/-! ## Metadata extraction (`guess_title`, lines 182-186;
`extract_description_and_keywords`, lines 233-253)

The script reads the file's text; here the text (and the path's stem) are
passed in directly. -/

/-- `guess_title`: the first line starting with `"# "` yields
`line[2:].strip()`; otherwise `stem.replace("-", " ").title()`. -/
def guess_title (stem text : List Char) : List Char :=
  match (pySplitLines text).find? (fun l => ['#', ' '].isPrefixOf l) with
  | some line => pyStripL (line.drop 2)
  | none => pyTitle (pyReplaceChar '-' ' ' stem)

/-- `text.split("\n\n")`: Python `str.split` with a two-character separator,
scanning left to right, keeping empty chunks. -/
def splitParas : List Char → List (List Char)
  | [] => [[]]
  | '\n' :: '\n' :: cs => [] :: splitParas cs
  | c :: cs =>
    match splitParas cs with
    | [] => [[c]]
    | p :: ps => (c :: p) :: ps

/-- Description half of `extract_description_and_keywords`: the first chunk of
`text.split("\n\n")` whose strip is non-empty, stripped and with newlines
replaced by spaces; `guess_title` when every chunk strips to empty. -/
def extract_description (stem text : List Char) : List Char :=
  match (splitParas text).find? (fun p => !(pyStripL p).isEmpty) with
  | some p => pyReplaceChar '\n' ' ' (pyStripL p)
  | none => guess_title stem text

/-- Keyword half of `extract_description_and_keywords`: every line starting
with `#`, cleaned by `line.lstrip("#").strip()`, in document order. -/
def heading_keywords (text : List Char) : List (List Char) :=
  ((pySplitLines text).filter (fun l => ['#'].isPrefixOf l)).map
    (fun l => pyStripL (l.dropWhile (· = '#')))

/-- `", ".join(keywords[:10])`. -/
def extract_keywords (text : List Char) : List Char :=
  List.intercalate [',', ' '] ((heading_keywords text).take 10)

/-! ## Link rewriting (`rewrite_internal_links`, lines 203-209)

An anchor's `href` attribute is `none` when absent.  The function below is the
per-anchor body of the loop; the loop itself is a map over the anchors. -/

/-- Per-anchor step of `rewrite_internal_links`: skip a missing or empty href
and any href starting with `http`, `#` or `mailto`; rewrite a remaining href
ending in `.md` to end in `.html`; leave all else unchanged. -/
def rewrite_href (href : Option (List Char)) : Option (List Char) :=
  match href with
  | none => none
  | some h =>
    if h.isEmpty || "http".data.isPrefixOf h || "#".data.isPrefixOf h ||
        "mailto".data.isPrefixOf h then some h
    else if ".md".data.isSuffixOf h then some (h.take (h.length - 3) ++ ".html".data)
    else some h

/-- `rewrite_internal_links`: every anchor of the body is rewritten. -/
def rewrite_internal_links (anchors : List (Option (List Char))) :
    List (Option (List Char)) :=
  anchors.map rewrite_href

/-! ## Canonical URL (`canonical_url_for`, lines 255-256; `BASE_URL`, line 25) -/

/-- The configured site base URL (note the trailing slash). -/
def BASE_URL : String := "https://omarabedelkader.github.io/Pharo-Copilot/"

/-- `str(rel_html)` with OS separators replaced by `/`. -/
def posixStr (p : RelPath) : String :=
  String.intercalate "/" (p.dir ++ [p.name])

/-- `canonical_url_for`: the f-string `f"{BASE_URL}/{...}"`. -/
def canonical_url_for (rel_html : RelPath) : String :=
  BASE_URL ++ "/" ++ posixStr rel_html

/-! ## The build loop (`main`, lines 270-304)

The filesystem is modelled as the ordered log of writes `(output path,
content)`; the external converter-plus-renderer is an explicit argument that
either produces the page text for a source file or fails.  `main` walks the
discovered files in order, writing each page, and aborts on the first
conversion error (the exception propagates out of `main`). -/

/-- One build run: the writes performed, and `.ok 0` (the value `main`
returns) or the propagated conversion error. -/
def runBuildAux (convert : RelPath → Except String String) :
    List RelPath → List (RelPath × String) → List (RelPath × String) × Except String Nat
  | [], acc => (acc, Except.ok 0)
  | f :: fs, acc =>
    match convert f with
    | Except.error e => (acc, Except.error e)
    | Except.ok page => runBuildAux convert fs (acc ++ [(md_rel_to_html_rel f, page)])

/-- `main` on a discovered (sorted) file list. -/
def runBuild (convert : RelPath → Except String String) (files : List RelPath) :
    List (RelPath × String) × Except String Nat :=
  runBuildAux convert files []

/-- Process exit status: `main`'s return value on success, non-zero (`1`) when
the uncaught exception aborts the interpreter. -/
def exitCode : Except String Nat → Nat
  | Except.ok n => n
  | Except.error _ => 1

/-- The content a path holds after a sequence of writes: each write replaces
whatever the path held before (`out.write_text`). -/
def finalContent (writes : List (RelPath × String)) (p : RelPath) : Option String :=
  writes.foldl (fun acc w => if w.1 = p then some w.2 else acc) none

/-- Python string `<`: lexicographic by code point, a strict prefix is
smaller. -/
def strLtB : List Char → List Char → Bool
  | [], [] => false
  | [], _ :: _ => true
  | _ :: _, [] => false
  | a :: as, b :: bs => if a < b then true else if a = b then strLtB as bs else false

/-- Lexicographic comparison of component lists (Python compares `Path`s by
their parts tuples). -/
def partsLe : List String → List String → Bool
  | [], _ => true
  | _ :: _, [] => false
  | x :: xs, y :: ys =>
    if strLtB x.data y.data then true else if x = y then partsLe xs ys else false

/-- Order in which `sorted(...)` in `list_markdown_files` yields paths. -/
def pathLe (a b : RelPath) : Bool :=
  partsLe (a.dir ++ [a.name]) (b.dir ++ [b.name])

/-! ## TOC cleaning (`clean_toc`, lines 191-201; TOC half of `convert_one`,
lines 220-224)

The parsed HTML is a forest of nodes; an element carries its tag, optional
`id` attribute, `class` attribute and children.  `soup.find("nav", id="TOC")`
is a preorder depth-first search. -/

mutual
inductive HNode where
  | text (s : String)
  | elem (tag : String) (idAttr : Option String) (classes : List String)
      (children : HForest)
inductive HForest where
  | nil
  | cons (hd : HNode) (tl : HForest)
end

mutual
/-- `soup.find("nav", id="TOC")` on one node: the node itself when it matches,
else the first match among its descendants. -/
def findTOCNode : HNode → Option HNode
  | HNode.text _ => none
  | HNode.elem tag idAttr classes children =>
    if tag = "nav" ∧ idAttr = some "TOC" then some (HNode.elem tag idAttr classes children)
    else findTOCForest children

/-- `soup.find("nav", id="TOC")` on a forest: first match in document order. -/
def findTOCForest : HForest → Option HNode
  | HForest.nil => none
  | HForest.cons n f =>
    match findTOCNode n with
    | some r => some r
    | none => findTOCForest f
end

mutual
/-- The class-assignment loops of `clean_toc` on a descendant: every `ul` gets
`class=["list-unstyled"]`, every `a` gets `class=["toc-link"]`, other nodes
keep their classes; all descendants are visited (`nav.find_all`). -/
def markNode : HNode → HNode
  | HNode.text s => HNode.text s
  | HNode.elem tag idAttr classes children =>
    HNode.elem tag idAttr
      (if tag = "ul" then ["list-unstyled"]
       else if tag = "a" then ["toc-link"]
       else classes)
      (markForest children)

/-- `markNode` over a forest. -/
def markForest : HForest → HForest
  | HForest.nil => HForest.nil
  | HForest.cons n f => HForest.cons (markNode n) (markForest f)
end

/-- `clean_toc`: parse the fragment, find `nav#TOC`; absent means the empty
string (modelled `none`); present means the nav with `class=["toc"]` and every
descendant `ul`/`a` marked. -/
def clean_toc (fragment : HForest) : Option HNode :=
  match findTOCForest fragment with
  | none => none
  | some (HNode.text s) => some (HNode.text s)
  | some (HNode.elem tag idAttr _ children) =>
    some (HNode.elem tag idAttr ["toc"] (markForest children))

/-- TOC half of `convert_one`: find `nav#TOC` in the converter's document; if
absent the TOC fragment is the empty string (`none`), otherwise
`clean_toc(str(toc))` — `clean_toc` re-parses the nav and finds it at the
root.  Total: no error case exists. -/
def convert_one_toc (doc : HForest) : Option HNode :=
  match findTOCForest doc with
  | none => none
  | some toc => clean_toc (HForest.cons toc HForest.nil)

mutual
/-- Checks that every descendant `ul` carries exactly `class=["list-unstyled"]`
and every descendant `a` exactly `class=["toc-link"]`. -/
def tocMarkedNode : HNode → Bool
  | HNode.text _ => true
  | HNode.elem tag _ classes children =>
    (if tag = "ul" then classes == ["list-unstyled"]
     else if tag = "a" then classes == ["toc-link"]
     else true) && tocMarkedForest children

/-- `tocMarkedNode` over a forest. -/
def tocMarkedForest : HForest → Bool
  | HForest.nil => true
  | HForest.cons n f => tocMarkedNode n && tocMarkedForest f
end

/-! ## Concrete example documents (used by witnesses) -/

/-- Children of an example TOC nav: one `ul` holding one `li` holding one
link. -/
def tocChildren : HForest :=
  HForest.cons
    (HNode.elem "ul" none ["stale"]
      (HForest.cons
        (HNode.elem "li" none []
          (HForest.cons
            (HNode.elem "a" none []
              (HForest.cons (HNode.text "Intro") HForest.nil))
            HForest.nil))
        HForest.nil))
    HForest.nil

/-- An example `nav#TOC` element. -/
def tocNavNode : HNode := HNode.elem "nav" (some "TOC") [] tocChildren

/-- Converter output containing a TOC container. -/
def docWithToc : HForest := HForest.cons tocNavNode HForest.nil

/-- Converter output with no TOC container anywhere. -/
def docNoToc : HForest :=
  HForest.cons
    (HNode.elem "div" none []
      (HForest.cons (HNode.text "hello") HForest.nil))
    HForest.nil

/-- A concrete rendered-page function for example runs: each page's content
names its source file. -/
def renderExample (f : RelPath) : String := "page:" ++ posixStr f

/-- A concrete converter for example runs: fails on `bad.md`, succeeds
elsewhere. -/
def convertExample (f : RelPath) : Except String String :=
  if f.name = "bad.md" then Except.error "pandoc: failure" else Except.ok (renderExample f)

/-! # Theorems -/

/-! ## Path-computation lemmas -/

/-- The rightmost dot of `stem ++ ".md"` sits right after the stem. -/
theorem lastDotPos_concat_md (stem : List Char) :
    lastDotPos (stem ++ ['.', 'm', 'd']) = some stem.length := by
  induction stem with
  | nil => rfl
  | cons c cs ih => simp [lastDotPos, ih]

/-- `with_suffix` on a name of the shape `stem.md` with non-empty stem
replaces the `.md`. -/
theorem withSuffix_concat_md (stem : List Char) (hne : stem ≠ []) :
    withSuffix (String.mk stem ++ ".md") ".html" = String.mk stem ++ ".html" := by
  have hdata : (String.mk stem ++ ".md").data = stem ++ ['.', 'm', 'd'] := rfl
  have hpos : 0 < stem.length := List.length_pos.mpr hne
  have hlen : stem.length + 1 < (stem ++ ['.', 'm', 'd']).length := by
    simp [List.length_append]
  simp only [withSuffix, hdata, lastDotPos_concat_md]
  rw [if_pos ⟨hpos, hlen⟩, List.take_left' rfl]

/-! ## C1 — output-path computation -/

/-- C1 counterexample: the claim says `sub/index.md` maps to `sub/index.html`
(the mirrored directory), but `md_rel_to_html_rel` maps it to the top-level
`index.html`, dropping the directory. -/
theorem c1_counterexample :
    md_rel_to_html_rel ⟨["sub"], "index.md"⟩ = ⟨[], "index.html"⟩ ∧
    md_rel_to_html_rel ⟨["sub"], "index.md"⟩ ≠ ⟨["sub"], "index.html"⟩ := by
  decide

/-- C1 (amended): a file whose name lowercases to `index.md`, in any
directory, maps to the top-level `index.html` (the directory components are
dropped, not mirrored); every other file `stem.md` maps to `stem.html` in the
corresponding output directory. -/
theorem c1_output_path (dir : List String) (stem : List Char) :
    (∀ name : String, pyLower name.data = "index.md".data →
      md_rel_to_html_rel ⟨dir, name⟩ = ⟨[], "index.html"⟩) ∧
    (stem ≠ [] →
      pyLower (stem ++ ['.', 'm', 'd']) ≠ "index.md".data →
      md_rel_to_html_rel ⟨dir, String.mk stem ++ ".md"⟩ =
        ⟨dir, String.mk stem ++ ".html"⟩) := by
  constructor
  · intro name h
    simp only [md_rel_to_html_rel, h, if_pos]
  · intro hne hidx
    have hdata : (String.mk stem ++ ".md").data = stem ++ ['.', 'm', 'd'] := rfl
    simp only [md_rel_to_html_rel, hdata, if_neg hidx]
    rw [withSuffix_concat_md stem hne]

/-- C1 witness: a lowercased and an uppercased `index.md`, and a regular
name, evaluated through `c1_output_path`. -/
theorem c1_output_path_witness :
    md_rel_to_html_rel ⟨["docs"], "INDEX.md"⟩ = ⟨[], "index.html"⟩ ∧
    md_rel_to_html_rel ⟨["docs"], "guide.md"⟩ = ⟨["docs"], "guide.html"⟩ := by
  constructor
  · exact (c1_output_path ["docs"] []).1 "INDEX.md" (by decide)
  · exact (c1_output_path ["docs"] "guide".data).2 (by decide) (by decide)

/-! ## C9 — canonical URLs -/

/-- C9: the canonical URL is the base URL, a slash, then the
slash-joined output path; since `BASE_URL` ends in `/`, every canonical URL
carries a double slash after the site prefix. -/
theorem c9_canonical_url (rel : RelPath) :
    canonical_url_for rel =
      "https://omarabedelkader.github.io/Pharo-Copilot//" ++ posixStr rel ∧
    BASE_URL.data.getLast? = some '/' ∧
    canonical_url_for ⟨[], "index.html"⟩ =
      "https://omarabedelkader.github.io/Pharo-Copilot//index.html" := by
  refine ⟨?_, by decide, by decide⟩
  apply String.ext
  show (BASE_URL ++ ("/" ++ posixStr rel)).data = _
  simp only [String.data_append]
  rw [← List.append_assoc]
  rfl

/-! ## C2 — description extraction -/

/-- C2 counterexample: on the spec's own example file content the claim says
the description is `Intro text.`, but the first chunk of `text.split("\n\n")`
is the heading line `# Guide`, which strips to non-empty, so the code returns
`# Guide`. -/
theorem c2_counterexample :
    extract_description "guide".data "# Guide\n\nIntro text.\n\n## Setup\n".data =
      "# Guide".data ∧
    extract_description "guide".data "# Guide\n\nIntro text.\n\n## Setup\n".data ≠
      "Intro text.".data := by
  decide

/-- C2 (amended): the description is the first chunk of `text.split("\n\n")`
whose strip is non-empty — whitespace-only leading chunks are skipped, and a
heading line counts as a paragraph — stripped and with newlines replaced by
single spaces; the title fallback occurs only when every chunk strips to
empty (the document is all whitespace). -/
theorem c2_description (stem text : List Char) :
    ((∀ p ∈ splitParas text, pyStripL p = []) →
      extract_description stem text = guess_title stem text) ∧
    (∀ ws p ps, splitParas text = ws ++ p :: ps →
      (∀ q ∈ ws, pyStripL q = []) →
      pyStripL p ≠ [] →
      extract_description stem text = pyReplaceChar '\n' ' ' (pyStripL p)) := by
  constructor
  · intro h
    have hnone : (splitParas text).find? (fun p => !(pyStripL p).isEmpty) = none := by
      rw [List.find?_eq_none]
      intro x hx
      simp [h x hx]
    rw [extract_description, hnone]
  · intro ws p ps hsplit hws hne
    have hwnone : ws.find? (fun p => !(pyStripL p).isEmpty) = none := by
      rw [List.find?_eq_none]
      intro x hx
      simp [hws x hx]
    have hp : (!(pyStripL p).isEmpty) = true := by
      simp [List.isEmpty_iff, hne]
    rw [extract_description, hsplit, List.find?_append, hwnone]
    simp only [Option.none_or, List.find?_cons, hp]

/-- C2 witness: the fallback branch on an all-whitespace document, the
first-paragraph branch on the spec's example content, and a document whose
leading chunk is whitespace-only, through `c2_description`. -/
theorem c2_description_witness :
    extract_description "x".data " \n\n \n\n ".data =
      guess_title "x".data " \n\n \n\n ".data ∧
    extract_description "guide".data "# Guide\n\nIntro text.\n\n## Setup\n".data =
      "# Guide".data ∧
    extract_description "x".data "\n\nIntro".data = "Intro".data := by
  refine ⟨(c2_description "x".data " \n\n \n\n ".data).1 (by decide), ?_, ?_⟩
  · have h := (c2_description "guide".data
        "# Guide\n\nIntro text.\n\n## Setup\n".data).2
      [] "# Guide".data ["Intro text.".data, "## Setup\n".data]
      (by decide) (by decide) (by decide)
    rw [h]
    decide
  · have h := (c2_description "x".data "\n\nIntro".data).2
      [[]] "Intro".data [] (by decide) (by decide) (by decide)
    rw [h]
    decide

/-! ## C6 — title extraction -/

/-- C6 counterexample: for the line `#  Hi ` the exact text following `# ` is
`␣Hi␣`, but `guess_title` strips it to `Hi`. -/
theorem c6_counterexample :
    guess_title "x".data "#  Hi \nrest".data = "Hi".data ∧
    guess_title "x".data "#  Hi \nrest".data ≠ " Hi ".data := by
  decide

/-- C6 (amended): the title is the text following `# ` on the first line that
starts with `# `, with surrounding whitespace stripped; with no such line it
is the stem with hyphens replaced by spaces and title-cased. -/
theorem c6_title (stem text : List Char) :
    (∀ ls1 line ls2, pySplitLines text = ls1 ++ line :: ls2 →
      (∀ l ∈ ls1, ['#', ' '].isPrefixOf l = false) →
      ['#', ' '].isPrefixOf line = true →
      guess_title stem text = pyStripL (line.drop 2)) ∧
    ((∀ l ∈ pySplitLines text, ['#', ' '].isPrefixOf l = false) →
      guess_title stem text = pyTitle (pyReplaceChar '-' ' ' stem)) := by
  constructor
  · intro ls1 line ls2 hsplit h1 hline
    have hnone : ls1.find? (fun l => ['#', ' '].isPrefixOf l) = none := by
      rw [List.find?_eq_none]
      intro x hx
      simp [h1 x hx]
    rw [guess_title, hsplit, List.find?_append, hnone]
    simp only [Option.none_or, List.find?_cons, hline]
  · intro h
    have hnone : (pySplitLines text).find? (fun l => ['#', ' '].isPrefixOf l) = none := by
      rw [List.find?_eq_none]
      intro x hx
      simp [h x hx]
    rw [guess_title, hnone]

/-- C6 witness: a document whose first `# ` line comes after other lines, and
the filename fallback, through `c6_title`. -/
theorem c6_title_witness :
    guess_title "x".data "intro\n# My Title\nbody".data = "My Title".data ∧
    guess_title "getting-started".data "plain text only".data =
      "Getting Started".data := by
  constructor
  · have h := (c6_title "x".data "intro\n# My Title\nbody".data).1
      ["intro".data] "# My Title".data ["body".data] (by decide) (by decide) (by decide)
    rw [h]
    decide
  · have h := (c6_title "getting-started".data "plain text only".data).2 (by decide)
    rw [h]
    decide

/-! ## C7 — keyword extraction -/

/-- Dropping while a predicate holds is idempotent. -/
theorem dropWhile_dropWhile {α} (p : α → Bool) (l : List α) :
    (l.dropWhile p).dropWhile p = l.dropWhile p := by
  induction l with
  | nil => rfl
  | cons a l ih =>
    by_cases h : p a
    · simp [List.dropWhile_cons, h, ih]
    · simp [List.dropWhile_cons, h]

/-- The head surviving a `dropWhile` fails the predicate. -/
theorem dropWhile_head_false {α} (p : α → Bool) :
    ∀ (l : List α) (a : α) (t : List α), l.dropWhile p = a :: t → p a = false := by
  intro l
  induction l with
  | nil => intro a t h; simp at h
  | cons b l ih =>
    intro a t h
    by_cases hb : p b
    · rw [List.dropWhile_cons, if_pos hb] at h
      exact ih a t h
    · rw [List.dropWhile_cons, if_neg hb] at h
      injection h with h1 _
      subst h1
      simpa using hb

/-- `strip` is idempotent: a stripped string has no surrounding whitespace
left. -/
theorem pyStripL_idem (cs : List Char) : pyStripL (pyStripL cs) = pyStripL cs := by
  set A := cs.dropWhile isPySpace with hA
  set X := A.reverse.dropWhile isPySpace with hX
  have hR : pyStripL cs = X.reverse := rfl
  have hXX : X.dropWhile isPySpace = X := by
    rw [hX]; exact dropWhile_dropWhile _ _
  have hRdrop : X.reverse.dropWhile isPySpace = X.reverse := by
    cases hxr : X.reverse with
    | nil => rfl
    | cons a t =>
      obtain ⟨u, hu⟩ : X <:+ A.reverse := by
        rw [hX]; exact List.dropWhile_suffix _
      have hArev : A = X.reverse ++ u.reverse := by
        have := congrArg List.reverse hu
        simpa [List.reverse_append] using this.symm
      have hAcons : cs.dropWhile isPySpace = a :: (t ++ u.reverse) := by
        rw [← hA, hArev, hxr]; rfl
      have hpa : isPySpace a = false :=
        dropWhile_head_false isPySpace cs a (t ++ u.reverse) hAcons
      rw [List.dropWhile_cons]
      simp [hpa]
  rw [hR]
  show ((X.reverse.dropWhile isPySpace).reverse.dropWhile isPySpace).reverse = X.reverse
  rw [hRdrop, List.reverse_reverse, hXX]

/-- C7: the keyword string is the comma-space join of the cleaned heading
lines (lines starting with `#`, their leading `#` markers then surrounding
whitespace stripped), in document order, capped at the first ten — so it never
carries more than 10 entries, each free of surrounding whitespace.  Includes
the spec example and an explicit over-ten cap check. -/
theorem c7_keywords (text : List Char) :
    (∃ ks, ks = (((pySplitLines text).filter (fun l => ['#'].isPrefixOf l)).map
        (fun l => pyStripL (l.dropWhile (· = '#')))).take 10 ∧
      extract_keywords text = List.intercalate [',', ' '] ks ∧
      ks.length ≤ 10 ∧
      ∀ k ∈ ks, pyStripL k = k) ∧
    extract_keywords "# Guide\n\nIntro text.\n\n## Setup\n".data =
      "Guide, Setup".data ∧
    extract_keywords
        "# h1\n# h2\n# h3\n# h4\n# h5\n# h6\n# h7\n# h8\n# h9\n# h10\n# h11\n# h12\n".data =
      "h1, h2, h3, h4, h5, h6, h7, h8, h9, h10".data := by
  refine ⟨⟨_, rfl, rfl, ?_, ?_⟩, by decide, by decide⟩
  · exact List.length_take_le _ _
  · intro k hk
    have hk' := List.take_subset _ _ hk
    obtain ⟨l, _, rfl⟩ := List.mem_map.mp hk'
    exact pyStripL_idem _

/-- C7 witness: `c7_keywords` evaluated on a two-heading document. -/
theorem c7_keywords_witness :
    extract_keywords "# A\ntext\n## B c\n".data = "A, B c".data := by
  obtain ⟨⟨ks, hks, hjoin, _, _⟩, _, _⟩ := c7_keywords "# A\ntext\n## B c\n".data
  rw [hjoin, hks]
  decide

/-! ## C5 / C10 — link rewriting -/

/-- C5 counterexample: `mailtox.md` is a relative markdown target and not a
mail link, yet the raw-prefix test `startswith("mailto")` matches it, so the
code leaves it unchanged where the claim requires `mailtox.html`. -/
theorem c5_counterexample :
    rewrite_href (some "mailtox.md".data) = some "mailtox.md".data ∧
    rewrite_href (some "mailtox.md".data) ≠ some "mailtox.html".data := by
  decide

/-- C5 (amended): an anchor whose target ends in `.md` and does not begin with
the raw prefixes `http`, `#` or `mailto` is rewritten to end in `.html`; the
claim's four examples behave exactly as it states. -/
theorem c5_rewrite (stem : List Char) :
    (("http".data.isPrefixOf (stem ++ ['.', 'm', 'd']) ||
        "#".data.isPrefixOf (stem ++ ['.', 'm', 'd']) ||
        "mailto".data.isPrefixOf (stem ++ ['.', 'm', 'd'])) = false →
      rewrite_href (some (stem ++ ['.', 'm', 'd'])) =
        some (stem ++ ".html".data)) ∧
    rewrite_internal_links
        [some "foo/bar.md".data, some "https://x.com/a.md".data,
         some "#anchor".data, some "mailto:a@b.com".data] =
      [some "foo/bar.html".data, some "https://x.com/a.md".data,
       some "#anchor".data, some "mailto:a@b.com".data] := by
  refine ⟨?_, by decide⟩
  intro hskip
  have hempty : (stem ++ ['.', 'm', 'd']).isEmpty = false := by
    cases stem <;> rfl
  have hsuf : ".md".data.isSuffixOf (stem ++ ['.', 'm', 'd']) = true := by
    simp [List.isSuffixOf]
  have hlen : (stem ++ ['.', 'm', 'd']).length - 3 = stem.length := by
    simp [List.length_append]
  have hc : ((stem ++ ['.', 'm', 'd']).isEmpty ||
      "http".data.isPrefixOf (stem ++ ['.', 'm', 'd']) ||
      "#".data.isPrefixOf (stem ++ ['.', 'm', 'd']) ||
      "mailto".data.isPrefixOf (stem ++ ['.', 'm', 'd'])) = false := by
    simp only [Bool.or_eq_false_iff] at hskip ⊢
    exact ⟨⟨⟨hempty, hskip.1.1⟩, hskip.1.2⟩, hskip.2⟩
  simp only [rewrite_href]
  rw [if_neg (by simp [hc]), if_pos hsuf, hlen, List.take_left' rfl]

/-- C5 witness: a plain relative markdown link rewritten through
`c5_rewrite`. -/
theorem c5_rewrite_witness :
    rewrite_href (some "docs/notes.md".data) = some "docs/notes.html".data := by
  have h := (c5_rewrite "docs/notes".data).1 (by decide)
  rw [show "docs/notes.md".data = "docs/notes".data ++ ['.', 'm', 'd'] from rfl, h]
  rfl

/-- C10: `rewrite_internal_links` skips any href that begins with the raw
characters `http`, `#` or `mailto` — including the relative markdown targets
`http-notes.md` and `mailtox.md` — and passes anchors without an href through
untouched. -/
theorem c10_raw_prefix_skip (h : List Char) :
    (("http".data.isPrefixOf h || "#".data.isPrefixOf h ||
        "mailto".data.isPrefixOf h) = true →
      rewrite_href (some h) = some h) ∧
    rewrite_href none = none ∧
    rewrite_href (some "http-notes.md".data) = some "http-notes.md".data ∧
    rewrite_href (some "mailtox.md".data) = some "mailtox.md".data := by
  refine ⟨?_, rfl, by decide, by decide⟩
  intro hcond
  simp only [rewrite_href]
  rw [if_pos]
  simp only [Bool.or_eq_true] at hcond ⊢
  tauto

/-- C10 witness: a fragment link passed through `c10_raw_prefix_skip`. -/
theorem c10_raw_prefix_skip_witness :
    rewrite_href (some "#anchor".data) = some "#anchor".data :=
  (c10_raw_prefix_skip "#anchor".data).1 (by decide)

/-! ## C3 / C4 — the build loop -/

/-- A run whose conversions all succeed appends exactly one write per file. -/
theorem runBuildAux_ok (convert : RelPath → Except String String)
    (render : RelPath → String) :
    ∀ (files : List RelPath) (acc : List (RelPath × String)),
      (∀ f ∈ files, convert f = Except.ok (render f)) →
      runBuildAux convert files acc =
        (acc ++ files.map (fun f => (md_rel_to_html_rel f, render f)),
          Except.ok 0) := by
  intro files
  induction files with
  | nil => intro acc _; simp [runBuildAux]
  | cons f fs ih =>
    intro acc h
    have hf : convert f = Except.ok (render f) := h f (by simp)
    simp only [runBuildAux, hf]
    rw [ih _ (fun g hg => h g (by simp [hg]))]
    simp

/-- A run over `pre ++ rest` whose `pre`-conversions succeed reduces to the
run over `rest` with `pre`'s writes logged. -/
theorem runBuildAux_ok_prefix (convert : RelPath → Except String String)
    (render : RelPath → String) :
    ∀ (pre rest : List RelPath) (acc : List (RelPath × String)),
      (∀ f ∈ pre, convert f = Except.ok (render f)) →
      runBuildAux convert (pre ++ rest) acc =
        runBuildAux convert rest
          (acc ++ pre.map (fun f => (md_rel_to_html_rel f, render f))) := by
  intro pre
  induction pre with
  | nil => intro rest acc _; simp
  | cons f fs ih =>
    intro rest acc h
    have hf : convert f = Except.ok (render f) := h f (by simp)
    simp only [List.cons_append, runBuildAux, hf, List.append_eq]
    rw [ih _ _ (fun g hg => h g (by simp [hg]))]
    simp

/-- C4: when the converter fails on a discovered file, the error propagates —
the run's outcome is that error (so the exit status is non-zero), the writes
are exactly those of the files before it in sorted order (not cleaned up),
and neither the failing file nor any later file is written; when every
conversion succeeds the outcome is `main`'s return value `0`. -/
theorem c4_error_aborts (convert : RelPath → Except String String)
    (render : RelPath → String) :
    (∀ (pre : List RelPath) (bad : RelPath) (post : List RelPath) (e : String),
      (∀ f ∈ pre, convert f = Except.ok (render f)) →
      convert bad = Except.error e →
      runBuild convert (pre ++ bad :: post) =
        (pre.map (fun f => (md_rel_to_html_rel f, render f)), Except.error e) ∧
      exitCode (runBuild convert (pre ++ bad :: post)).2 ≠ 0) ∧
    (∀ files : List RelPath,
      (∀ f ∈ files, convert f = Except.ok (render f)) →
      runBuild convert files =
        (files.map (fun f => (md_rel_to_html_rel f, render f)), Except.ok 0) ∧
      exitCode (runBuild convert files).2 = 0) := by
  constructor
  · intro pre bad post e hpre hbad
    have hrun : runBuild convert (pre ++ bad :: post) =
        (pre.map (fun f => (md_rel_to_html_rel f, render f)), Except.error e) := by
      rw [runBuild, runBuildAux_ok_prefix convert render pre (bad :: post) [] hpre]
      simp only [runBuildAux, hbad, List.nil_append]
    refine ⟨hrun, ?_⟩
    rw [hrun]
    simp [exitCode]
  · intro files h
    have hrun : runBuild convert files =
        (files.map (fun f => (md_rel_to_html_rel f, render f)), Except.ok 0) := by
      rw [runBuild, runBuildAux_ok convert render files [] h]
      simp
    refine ⟨hrun, ?_⟩
    rw [hrun]
    rfl

/-- C4 witness: `convertExample` fails on `bad.md`; the prior file's page is
on disk, the failing and later files are not, and the all-good run exits 0 —
via `c4_error_aborts`. -/
theorem c4_error_aborts_witness :
    runBuild convertExample [⟨[], "a.md"⟩, ⟨[], "bad.md"⟩, ⟨[], "z.md"⟩] =
      ([(⟨[], "a.html"⟩, "page:a.md")], Except.error "pandoc: failure") ∧
    runBuild convertExample [⟨[], "a.md"⟩] =
      ([(⟨[], "a.html"⟩, "page:a.md")], Except.ok 0) := by
  constructor
  · have h := (c4_error_aborts convertExample renderExample).1
      [⟨[], "a.md"⟩] ⟨[], "bad.md"⟩ [⟨[], "z.md"⟩] "pandoc: failure"
      (by intro f hf; simp at hf; subst hf; rfl) rfl
    exact h.1.trans rfl
  · have h := (c4_error_aborts convertExample renderExample).2
      [⟨[], "a.md"⟩] (by intro f hf; simp at hf; subst hf; rfl)
    exact h.1.trans rfl

/-- Last write wins: after mapping each file to its write, the content a path
holds is the render of the last file mapping to it. -/
theorem finalContent_map (render : RelPath → String) (files : List RelPath)
    (p : RelPath) :
    finalContent (files.map (fun f => (md_rel_to_html_rel f, render f))) p =
      ((files.filter (fun f => md_rel_to_html_rel f = p)).getLast?).map render := by
  induction files using List.reverseRecOn with
  | nil => rfl
  | append_singleton fs f ih =>
    by_cases hf : md_rel_to_html_rel f = p
    · simp [finalContent, List.foldl_append, List.filter_append, hf] at ih ⊢
    · simp [finalContent, List.foldl_append, List.filter_append, hf] at ih ⊢
      exact ih

/-- `partsLe` is reflexive. -/
theorem partsLe_refl (l : List String) : partsLe l l = true := by
  induction l with
  | nil => rfl
  | cons x xs ih => simp [partsLe, ih, lt_irrefl]

/-- `pathLe` is reflexive. -/
theorem pathLe_refl (a : RelPath) : pathLe a a = true := partsLe_refl _

/-- In a `pathLe`-sorted list every element is `pathLe` the last one. -/
theorem getLast?_pairwise_le :
    ∀ l : List RelPath, l.Pairwise (fun a b => pathLe a b = true) →
      ∀ la, l.getLast? = some la → ∀ f ∈ l, pathLe f la = true := by
  intro l
  induction l with
  | nil => intro _ la h; simp at h
  | cons a t ih =>
    intro hp la h f hf
    cases t with
    | nil =>
      simp at h hf
      subst h
      subst hf
      exact pathLe_refl _
    | cons b t' =>
      rw [List.getLast?_cons_cons] at h
      rcases List.mem_cons.mp hf with rfl | hmem
      · have hla : la ∈ b :: t' := List.mem_of_getLast?_eq_some h
        exact (List.pairwise_cons.mp hp).1 la hla
      · exact ih (List.pairwise_cons.mp hp).2 la h f hmem

/-- C3: when every conversion succeeds and two (or more) sorted files collide
on one output path, the build still ends with `main` returning 0; each
colliding file's page is written in turn, so the path finally holds the
rendered page of the collision's last file in sorted order, which is the
`pathLe`-greatest colliding file. -/
theorem c3_collision (convert : RelPath → Except String String)
    (render : RelPath → String) (files : List RelPath) (p la : RelPath) :
    (∀ f ∈ files, convert f = Except.ok (render f)) →
    files.Pairwise (fun a b => pathLe a b = true) →
    (files.filter (fun f => md_rel_to_html_rel f = p)).getLast? = some la →
    (runBuild convert files).2 = Except.ok 0 ∧
    finalContent (runBuild convert files).1 p = some (render la) ∧
    ∀ f ∈ files.filter (fun f => md_rel_to_html_rel f = p),
      pathLe f la = true := by
  intro hok hsorted hlast
  have hrun := runBuildAux_ok convert render files [] hok
  rw [runBuild] at *
  refine ⟨by rw [hrun], ?_, ?_⟩
  · rw [hrun]
    simp only [List.nil_append]
    rw [finalContent_map, hlast]
    rfl
  · exact getLast?_pairwise_le _ (hsorted.filter _) la hlast

/-- C3 witness: `index.md` and `sub/index.md` both map to the top-level
`index.html`; the run succeeds and the later-sorted `sub/index.md` page is
what the path finally holds — via `c3_collision`. -/
theorem c3_collision_witness :
    finalContent (runBuild (fun f => Except.ok (renderExample f))
        [⟨[], "index.md"⟩, ⟨["sub"], "index.md"⟩]).1 ⟨[], "index.html"⟩ =
      some "page:sub/index.md" ∧
    (runBuild (fun f => Except.ok (renderExample f))
        [⟨[], "index.md"⟩, ⟨["sub"], "index.md"⟩]).2 = Except.ok 0 := by
  have h := c3_collision (fun f => Except.ok (renderExample f)) renderExample
      [⟨[], "index.md"⟩, ⟨["sub"], "index.md"⟩] ⟨[], "index.html"⟩
      ⟨["sub"], "index.md"⟩
      (by intro f _; rfl) (by decide) (by decide)
  refine ⟨?_, h.1⟩
  rw [h.2.1]
  rfl

/-! ## C8 — TOC cleaning -/

mutual
/-- Marking a node marks every descendant `ul` and `a`. -/
theorem markNode_marked : ∀ n : HNode, tocMarkedNode (markNode n) = true
  | HNode.text _ => rfl
  | HNode.elem tag idAttr classes children => by
    simp only [markNode, tocMarkedNode]
    rw [markForest_marked children]
    by_cases h1 : tag = "ul"
    · simp [h1]
    · by_cases h2 : tag = "a" <;> simp [h1, h2]

/-- Marking a forest marks every descendant `ul` and `a`. -/
theorem markForest_marked : ∀ f : HForest, tocMarkedForest (markForest f) = true
  | HForest.nil => rfl
  | HForest.cons n f => by
    simp only [markForest, tocMarkedForest]
    rw [markNode_marked n, markForest_marked f]
    rfl
end

mutual
/-- Whatever `find("nav", id="TOC")` returns is a `nav` with id `TOC`. -/
theorem findTOCNode_shape : ∀ (n : HNode) (r : HNode), findTOCNode n = some r →
    ∃ cls ch, r = HNode.elem "nav" (some "TOC") cls ch
  | HNode.text _, r => by
    intro h
    simp [findTOCNode] at h
  | HNode.elem tag idAttr classes children, r => by
    intro h
    rw [findTOCNode] at h
    by_cases hc : tag = "nav" ∧ idAttr = some "TOC"
    · rw [if_pos hc] at h
      obtain ⟨h1, h2⟩ := hc
      subst h1
      subst h2
      exact ⟨classes, children, (Option.some.inj h).symm⟩
    · rw [if_neg hc] at h
      exact findTOCForest_shape children r h

/-- Whatever the forest search returns is a `nav` with id `TOC`. -/
theorem findTOCForest_shape : ∀ (f : HForest) (r : HNode), findTOCForest f = some r →
    ∃ cls ch, r = HNode.elem "nav" (some "TOC") cls ch
  | HForest.nil, r => by
    intro h
    simp [findTOCForest] at h
  | HForest.cons n f, r => by
    intro h
    rw [findTOCForest] at h
    cases hn : findTOCNode n with
    | some x =>
      rw [hn] at h
      have hx : x = r := by simpa using h
      subst hx
      exact findTOCNode_shape n x hn
    | none =>
      rw [hn] at h
      exact findTOCForest_shape f r h
end

/-- C8: a converter document with no `nav#TOC` yields the empty TOC fragment,
with no error path; a present container comes back as the nav with
`class=["toc"]` and every descendant list and link carrying its structural
class marker. -/
theorem c8_missing_toc (doc : HForest) :
    (findTOCForest doc = none → convert_one_toc doc = none) ∧
    (∀ toc, findTOCForest doc = some toc →
      ∃ cls ch, toc = HNode.elem "nav" (some "TOC") cls ch ∧
        convert_one_toc doc =
          some (HNode.elem "nav" (some "TOC") ["toc"] (markForest ch)) ∧
        tocMarkedForest (markForest ch) = true) := by
  constructor
  · intro h
    rw [convert_one_toc, h]
  · intro toc h
    obtain ⟨cls, ch, rfl⟩ := findTOCForest_shape doc toc h
    refine ⟨cls, ch, rfl, ?_, markForest_marked ch⟩
    rw [convert_one_toc, h]
    simp [clean_toc, findTOCForest, findTOCNode]

/-- C8 witness: `c8_missing_toc` on a document without a TOC container and on
one with a (ul, li, a) container. -/
theorem c8_missing_toc_witness :
    convert_one_toc docNoToc = none ∧
    convert_one_toc docWithToc =
      some (HNode.elem "nav" (some "TOC") ["toc"] (markForest tocChildren)) ∧
    tocMarkedForest (markForest tocChildren) = true := by
  refine ⟨(c8_missing_toc docNoToc).1 rfl, ?_⟩
  obtain ⟨cls, ch, he, h2, h3⟩ := (c8_missing_toc docWithToc).2 tocNavNode rfl
  unfold tocNavNode at he
  injection he with _ _ hcls hch
  subst hch
  exact ⟨h2, h3⟩

end BuildSite
